import Mathlib

/-!
Verification development for the backup retention and incremental-snapshot
engine of `rsyncbackup.py`.

The filesystem is modelled shallowly: a state holds the list of directory
paths and the list of regular-file paths present, each path being the list
of its name components.  A path counts as an existing directory when it is
a prefix of some recorded directory path, so ancestors of a directory
exist, matching a real filesystem tree.  `os.listdir`, `Path.is_dir`,
`Path.exists`, `Path.mkdir(parents=True)` and `shutil.rmtree` are
interpreted over this state.

Strings are compared exactly as Python compares them (lexicographically by
code point), and the default `%Y%m%d` date format check reproduces
CPython's `strptime`: the regex fragments for `%Y`, `%m`, `%d` with their
backtracking priority, the whole-string consumption check, and the
`datetime` calendar validation.
-/

namespace RsyncBackup

/-- A filesystem path, as the list of its name components. -/
abbrev FPath := List String

/-- A Python `pathlib` path value: whether it is absolute, plus its
non-root name components; `Path("/etc/nginx")` is `⟨true, ["etc","nginx"]⟩`
and its `parts` are `('/', 'etc', 'nginx')`. -/
structure PyPath where
  absolute : Bool
  comps : List String
  deriving DecidableEq, Repr

/-- The filesystem state: the directory paths and regular-file paths
present. -/
structure FS where
  dirs : List FPath
  files : List FPath
  deriving DecidableEq, Repr

/-- `Path.is_dir` / `os.path.isdir`: `p` is a prefix of some recorded
directory path (so ancestors of a recorded directory exist). -/
def FS.isDir (fs : FS) (p : FPath) : Bool := fs.dirs.any (fun d => p.isPrefixOf d)

/-- A regular file exists at exactly this path. -/
def FS.isFile (fs : FS) (p : FPath) : Bool := fs.files.contains p

/-- `Path.exists` / `os.path.exists`. -/
def FS.pathExists (fs : FS) (p : FPath) : Bool := fs.isDir p || fs.isFile p

/-- `os.listdir`: the names of the immediate children (directories or
files) of `p`.  The OS returns them in unspecified order; every caller in
the source sorts afterwards. -/
def FS.listdir (fs : FS) (p : FPath) : List String :=
  ((fs.dirs ++ fs.files).filterMap
    (fun q => if p.isPrefixOf q then (q.drop p.length).head? else none)).dedup

/-- `Path.mkdir(parents=True)`: record the path as a directory (its
ancestors then exist by the prefix rule). -/
def FS.mkdirp (fs : FS) (p : FPath) : FS := { fs with dirs := p :: fs.dirs }

/-- `shutil.rmtree`: remove `p` and everything below it. -/
def FS.rmtree (fs : FS) (p : FPath) : FS :=
  { dirs := fs.dirs.filter (fun d => !(p.isPrefixOf d)),
    files := fs.files.filter (fun f => !(p.isPrefixOf f)) }

/-- No entry (directory or regular file) lies at or below `p`: the dated
snapshot path does not yet exist on disk in any form. -/
def FS.dateFresh (fs : FS) (p : FPath) : Prop :=
  (∀ e ∈ fs.dirs, p.isPrefixOf e = false) ∧ (∀ e ∈ fs.files, p.isPrefixOf e = false)

/-- Code-point lexicographic comparison of character lists, as Python
compares strings. -/
def listCharLe : List Char → List Char → Bool
  | [], _ => true
  | _ :: _, [] => false
  | a :: as, b :: bs =>
    if a.toNat < b.toNat then true
    else if b.toNat < a.toNat then false
    else listCharLe as bs

/-- Python's `<=` on strings. -/
def strLe (a b : String) : Bool := listCharLe a.data b.data

/-- Python's `sorted` on a list of strings. -/
def sortStr (l : List String) : List String :=
  List.insertionSort (fun a b => strLe a b = true) l

/-- Decimal digit value of a character. -/
def digitVal (c : Char) : Nat := c.toNat - 48

/-- The character is one of `1`..`9`. -/
def isD19 (c : Char) : Bool := '1' ≤ c && c ≤ '9'

/-- The character is one of `0`..`9`. -/
def isD09 (c : Char) : Bool := '0' ≤ c && c ≤ '9'

/-- The alternatives of CPython strptime's regex fragment for `%m`
(`1[0-2]|0[1-9]|[1-9]`) in backtracking priority order, each with the
month value and the unconsumed remainder. -/
def monthAlts : List Char → List (Nat × List Char)
  | c1 :: c2 :: rest =>
    (if c1 == '1' && (c2 == '0' || c2 == '1' || c2 == '2') then
      [(10 + digitVal c2, rest)] else [])
    ++ (if c1 == '0' && isD19 c2 then [(digitVal c2, rest)] else [])
    ++ (if isD19 c1 then [(digitVal c1, c2 :: rest)] else [])
  | [c1] => if isD19 c1 then [(digitVal c1, [])] else []
  | [] => []

/-- The alternatives of CPython strptime's regex fragment for `%d`
(`3[01]|[12]\d|0[1-9]|[1-9]`) in backtracking priority order. -/
def dayAlts : List Char → List (Nat × List Char)
  | c1 :: c2 :: rest =>
    (if c1 == '3' && (c2 == '0' || c2 == '1') then [(30 + digitVal c2, rest)] else [])
    ++ (if (c1 == '1' || c1 == '2') && isD09 c2 then
      [(10 * digitVal c1 + digitVal c2, rest)] else [])
    ++ (if c1 == '0' && isD19 c2 then [(digitVal c2, rest)] else [])
    ++ (if isD19 c1 then [(digitVal c1, c2 :: rest)] else [])
  | [c1] => if isD19 c1 then [(digitVal c1, [])] else []
  | [] => []

/-- The first complete regex match of `%m%d`, in the engine's backtracking
order, together with the unconsumed remainder.  The engine commits to the
first alternative pair under which both groups match, regardless of
whether the remainder is empty. -/
def mdMatch (r : List Char) : Option (Nat × Nat × List Char) :=
  ((monthAlts r).flatMap (fun mr => (dayAlts mr.2).map (fun dr => (mr.1, dr.1, dr.2)))).head?

/-- Gregorian leap year, as `datetime` uses. -/
def isLeap (y : Nat) : Bool := y % 4 == 0 && (y % 100 != 0 || y % 400 == 0)

/-- Days in a month, as `datetime` validates. -/
def daysInMonth (y m : Nat) : Nat :=
  if m == 2 then (if isLeap y then 29 else 28)
  else if m == 4 || m == 6 || m == 9 || m == 11 then 30
  else 31

/-- `datetime.strptime(s, "%Y%m%d")`: four year digits, then the first
`%m%d` regex match, which must consume the whole string (`unconverted data
remains` otherwise), and the resulting triple must pass the `datetime`
range checks (`MINYEAR <= y`, day within the month). -/
def strptimeYmd (s : String) : Option (Nat × Nat × Nat) :=
  match s.data with
  | y1 :: y2 :: y3 :: y4 :: rest =>
    if y1.isDigit && y2.isDigit && y3.isDigit && y4.isDigit then
      match mdMatch rest with
      | some (m, d, r3) =>
        if r3.isEmpty then
          let y := 1000 * digitVal y1 + 100 * digitVal y2 + 10 * digitVal y3 + digitVal y4
          if 1 ≤ y && 1 ≤ d && d ≤ daysInMonth y m then some (y, m, d) else none
        else none
      | none => none
    else none
  | _ => none

/-- `RsyncBackup.__is_valid_date_format` with the default `%Y%m%d`
format: `strptime` succeeds. -/
def is_valid_date_format (s : String) : Bool := (strptimeYmd s).isSome

/-- `str` of path components joined with `/`. -/
def renderComps : List String → String
  | [] => ""
  | [x] => x
  | x :: rest => x ++ "/" ++ renderComps rest

/-- `str(Path(...))`: leading separator iff absolute. -/
def renderPyPath (p : PyPath) : String :=
  (if p.absolute then "/" else "") ++ renderComps p.comps

/-- `str` of a component path rooted like the backup location. -/
def renderFPath (absolute : Bool) (p : FPath) : String :=
  (if absolute then "/" else "") ++ renderComps p

/-- One entry of `RsyncObject.__directory_list`: the configured directory
path with its exclude patterns. -/
abbrev DirSpec := PyPath × List String

/-- One `RsyncObject`. -/
structure ServerCfg where
  name : String
  directory_list : List DirSpec
  deriving DecidableEq, Repr

/-- The configuration and per-run state of `RsyncBackup` read by
`__rsync` and `__check_number_backups`. -/
structure Config where
  backup_location : PyPath
  backup_date : String
  number_of_versions : Nat
  dryrun : Bool
  backup_user : String
  host_short : String
  host_fqdn : String
  valid : String → Bool
  servers : List ServerCfg

/-- The components of the backup root. -/
def Config.root (cfg : Config) : FPath := cfg.backup_location.comps

/-- `target_location = Path(backup_location) / servername`. -/
def Config.targetOf (cfg : Config) (srv : ServerCfg) : FPath := cfg.root ++ [srv.name]

/-- `RsyncBackup.__get_old_backup_dates` (lines 139-151): empty for a
missing or non-directory target, otherwise the sorted date-conforming
entry names. -/
def get_old_backup_dates (valid : String → Bool) (fs : FS) (target_dir : FPath) : List String :=
  if !(fs.pathExists target_dir) || !(fs.isDir target_dir) then []
  else sortStr ((fs.listdir target_dir).filter valid)

/-- `RsyncBackup.__get_old_backup_directories` (lines 153-161). -/
def get_old_backup_directories (fs : FS) (target_location : FPath)
    (previous_backup_dates : List String) (directory : FPath) : List String :=
  sortStr (if previous_backup_dates.isEmpty then []
           else previous_backup_dates.filter
             (fun previous_backup => fs.isDir (target_location ++ [previous_backup] ++ directory)))

/-- `RsyncObject.get_excludes_for_directory` (lines 389-394). -/
def get_excludes_for_directory : List DirSpec → PyPath → List String
  | [], _ => []
  | (dir_path, exclude_list) :: rest, d =>
    if dir_path = d then exclude_list else get_excludes_for_directory rest d

/-- Lines 201-205 of `__rsync`: the link-reference chosen for one
directory. -/
def last_backup_for (fs : FS) (target_location : FPath) (previous_backup_dates : List String)
    (backup_date : String) (stripped_directory : FPath) : Option String :=
  let previous_backups :=
    get_old_backup_directories fs target_location previous_backup_dates stripped_directory
  let previous_backups := previous_backups.filter (fun date => date != backup_date)
  (sortStr previous_backups).getLast?

/-- Lines 216-237: the rsync command line for one directory.  The
`--link-dest` argument is the f-string
`f'{target_location}/{last_backup}{directory}'` of the source: no
separator between the date and the original configured directory. -/
def build_rsync_cmd (cfg : Config) (srv : ServerCfg) (directory : PyPath)
    (excludes : List String) (last_backup : Option String) (object_target : FPath) :
    List String :=
  let system_is_local := cfg.host_short == srv.name || cfg.host_fqdn == srv.name
  let remote_location := cfg.backup_user ++ "@" ++ srv.name ++ ":" ++ renderPyPath directory ++ "/"
  let target_location_str := renderFPath cfg.backup_location.absolute (cfg.targetOf srv)
  let source_path := if system_is_local then renderPyPath directory ++ "/" else remote_location
  ["rsync", "-arv"]
  ++ (if cfg.dryrun then ["--dry-run"] else [])
  ++ [source_path, renderFPath cfg.backup_location.absolute object_target]
  ++ excludes.flatMap (fun pattern => ["--exclude", pattern])
  ++ (match last_backup with
      | some lb => ["--link-dest", target_location_str ++ "/" ++ lb ++ renderPyPath directory]
      | none => [])

/-- Lines 244-250: the retention prune run once per server at the end of
its loop, against the `previous_backup_dates` list captured at lines
183-184. -/
def prune_step (fs : FS) (target_location : FPath) (previous_backup_dates : List String)
    (number_of_versions : Nat) : FS :=
  if previous_backup_dates.length > number_of_versions then
    match previous_backup_dates with
    | [] => fs
    | oldest_backup :: _ =>
      if fs.isDir (target_location ++ [oldest_backup]) then
        fs.rmtree (target_location ++ [oldest_backup])
      else fs
  else fs

/-- Lines 191-241: the per-directory loop of `__rsync` for one server,
returning the final state and the rsync invocations issued. -/
def rsyncDirs (cfg : Config) (srv : ServerCfg) (target_location : FPath)
    (previous_backup_dates : List String) : List PyPath → FS → FS × List (List String)
  | [], fs => (fs, [])
  | directory :: rest, fs =>
    let stripped_directory := directory.comps
    let last_backup :=
      last_backup_for fs target_location previous_backup_dates cfg.backup_date stripped_directory
    let object_target := target_location ++ [cfg.backup_date] ++ stripped_directory
    if fs.pathExists object_target then
      rsyncDirs cfg srv target_location previous_backup_dates rest fs
    else
      let fs1 := fs.mkdirp object_target
      let cmd := build_rsync_cmd cfg srv directory
        (get_excludes_for_directory srv.directory_list directory) last_backup object_target
      let r := rsyncDirs cfg srv target_location previous_backup_dates rest fs1
      (r.1, cmd :: r.2)

/-- Lines 173-250 of `__rsync` for one server: capture the date list,
ensure the server root exists, run the directory loop, then prune. -/
def rsyncServer (cfg : Config) (fs : FS) (srv : ServerCfg) : FS × List (List String) :=
  let target_location := cfg.targetOf srv
  let previous_backup_dates := get_old_backup_dates cfg.valid fs target_location
  let fs1 := fs.mkdirp target_location
  let r := rsyncDirs cfg srv target_location previous_backup_dates
    (srv.directory_list.map Prod.fst) fs1
  (prune_step r.1 target_location previous_backup_dates cfg.number_of_versions, r.2)

/-- The outer server loop of `__rsync`, with `selected_servername`. -/
def rsyncServers (cfg : Config) (sel : Option String) :
    List ServerCfg → FS → FS × List (List String)
  | [], fs => (fs, [])
  | srv :: rest, fs =>
    if (match sel with | some s => srv.name != s | none => false) then
      rsyncServers cfg sel rest fs
    else
      let r1 := rsyncServer cfg fs srv
      let r2 := rsyncServers cfg sel rest r1.1
      (r2.1, r1.2 ++ r2.2)

/-- `RsyncBackup.__rsync`: the whole backup pass over the configured
servers (the part of `backup()` that touches the store). -/
def rsyncRun (cfg : Config) (fs : FS) (sel : Option String) : FS × List (List String) :=
  rsyncServers cfg sel cfg.servers fs

/-- The `--check` report variants. -/
inductive CheckType
  | default
  | full
  | last
  deriving DecidableEq, Repr

/-- Lines 287-293 of `__check_number_backups`: the `backup_names` value
for one directory; `none` models the uncaught `IndexError` raised by
`sorted(directories)[-1]` on an empty list. -/
def backup_names : CheckType → List String → Option String
  | .full, directories => some (String.intercalate ", " (sortStr directories))
  | .last, directories => (sortStr directories).getLast?
  | .default, _ => some ""

/-- Lines 266-282: the per-(server, directory) `previous_backups` lists
gathered by `__check_number_backups`, in iteration order. -/
def check_pairs (cfg : Config) (sel : Option String) (fs : FS) : List (List String) :=
  cfg.servers.flatMap (fun srv =>
    if (match sel with | some s => srv.name != s | none => false) then []
    else
      let target_location := cfg.targetOf srv
      let previous_backup_dates := get_old_backup_dates cfg.valid fs target_location
      srv.directory_list.map (fun de =>
        get_old_backup_directories fs target_location previous_backup_dates de.1.comps))

/-- `__check_number_backups` reduced to the data it computes: the rendered
`backup_names` per pair; `none` when an `IndexError` escapes. -/
def check_number_backups (cfg : Config) (sel : Option String) (fs : FS)
    (check_type : CheckType) : Option (List String) :=
  (check_pairs cfg sel fs).mapM (backup_names check_type)

/-! ### Sample stores and configurations for concrete checks -/

/-- Two snapshots of `web1`, both containing `etc`. -/
def sampleTwoEtc : FS :=
  { dirs := [["backups", "web1", "20240101", "etc"], ["backups", "web1", "20240102", "etc"]],
    files := [] }

/-- Snapshots `20240101` (with an `etc` sub-directory) and `20240102`
(without one). -/
def sampleOneEtc : FS :=
  { dirs := [["backups", "web1", "20240101", "etc"], ["backups", "web1", "20240102"]],
    files := [] }

/-- The server root holds a regular file named `20240101` and no snapshot
directories. -/
def sampleFileChild : FS :=
  { dirs := [["backups", "web1"]], files := [["backups", "web1", "20240101"]] }

/-- Child names `20240101`, `20240115`, `bogus`, `20240102` under the
server root. -/
def sampleMixedNames : FS :=
  { dirs := [["backups", "web1", "20240101"], ["backups", "web1", "20240115"],
             ["backups", "web1", "bogus"], ["backups", "web1", "20240102"]],
    files := [] }

/-- Configuration: one server `web1` with directory `/etc/nginx`,
retention 3, backup root `/backups`, today `20240104`. -/
def sampleCfgR3 : Config :=
  { backup_location := ⟨true, ["backups"]⟩
    backup_date := "20240104"
    number_of_versions := 3
    dryrun := false
    backup_user := "root"
    host_short := "backuphost"
    host_fqdn := "backuphost.example.org"
    valid := is_valid_date_format
    servers := [⟨"web1", [(⟨true, ["etc", "nginx"]⟩, [])]⟩] }

/-- Three daily snapshots `20240101`..`20240103` of `web1`, each holding
`etc/nginx`. -/
def sampleThreeDays : FS :=
  { dirs := [["backups", "web1", "20240101", "etc", "nginx"],
             ["backups", "web1", "20240102", "etc", "nginx"],
             ["backups", "web1", "20240103", "etc", "nginx"]],
    files := [] }

/-- Dry-run configuration with retention 1 and today `20240103`. -/
def sampleCfgDry : Config :=
  { backup_location := ⟨true, ["backups"]⟩
    backup_date := "20240103"
    number_of_versions := 1
    dryrun := true
    backup_user := "root"
    host_short := "backuphost"
    host_fqdn := "backuphost.example.org"
    valid := is_valid_date_format
    servers := [⟨"web1", [(⟨true, ["etc"]⟩, [])]⟩] }

/-- Two daily snapshots of `web1`, each holding `etc`. -/
def sampleTwoDays : FS :=
  { dirs := [["backups", "web1", "20240101", "etc"],
             ["backups", "web1", "20240102", "etc"]],
    files := [] }

/-- Retention-zero configuration, today `20240101`. -/
def sampleCfgR0 : Config :=
  { backup_location := ⟨true, ["backups"]⟩
    backup_date := "20240101"
    number_of_versions := 0
    dryrun := false
    backup_user := "root"
    host_short := "backuphost"
    host_fqdn := "backuphost.example.org"
    valid := is_valid_date_format
    servers := [⟨"web1", [(⟨true, ["etc"]⟩, [])]⟩] }

/-- An empty backup store. -/
def sampleEmptyFS : FS := { dirs := [], files := [] }

/-- A store holding only the bare server root. -/
def sampleBareRoot : FS := { dirs := [["backups", "web1"]], files := [] }

/-! ### Prefix toolkit -/

theorem ipo_iff : ∀ (p q : FPath), p.isPrefixOf q = true ↔ p <+: q
  | [], q => by simp [List.isPrefixOf, List.nil_prefix]
  | a :: as, [] => by
    simp only [List.isPrefixOf, Bool.false_eq_true, false_iff]
    rintro ⟨t, ht⟩
    exact absurd ht (by simp)
  | a :: as, b :: bs => by
    simp only [List.isPrefixOf, Bool.and_eq_true, beq_iff_eq, ipo_iff as bs]
    constructor
    · rintro ⟨rfl, t, rfl⟩
      exact ⟨t, rfl⟩
    · rintro ⟨t, ht⟩
      injection ht with h1 h2
      exact ⟨h1, t, h2⟩

theorem pref_comp {p q w : FPath} (hp : p <+: w) (hq : q <+: w) : p <+: q ∨ q <+: p := by
  rcases Nat.le_total p.length q.length with h | h
  · exact Or.inl (List.prefix_of_prefix_length_le hp hq h)
  · exact Or.inr (List.prefix_of_prefix_length_le hq hp h)

theorem pref_snoc_ne {a : FPath} {x y : String} {u : FPath}
    (h : (a ++ [x]) <+: (a ++ y :: u)) : x = y := by
  obtain ⟨t, ht⟩ := h
  rw [List.append_assoc] at ht
  have h2 := List.append_cancel_left ht
  injection h2

theorem pref_snoc_of_cons {a : FPath} {x : String} {u : FPath} :
    (a ++ [x]) <+: (a ++ x :: u) := ⟨u, by simp⟩

theorem pref_incomp {a : FPath} {x y : String} {u v : FPath} (hxy : x ≠ y) :
    ¬ ((a ++ x :: u) <+: (a ++ y :: v)) := by
  intro h
  exact hxy (pref_snoc_ne (pref_snoc_of_cons.trans h))

theorem snoc_pref_iff {p q : FPath} {n : String} :
    (p ++ [n]) <+: q ↔ p <+: q ∧ (q.drop p.length).head? = some n := by
  constructor
  · rintro ⟨t, rfl⟩
    rw [List.append_assoc]
    refine ⟨⟨n :: t, rfl⟩, ?_⟩
    rw [List.drop_left]
    rfl
  · rintro ⟨⟨t, rfl⟩, hh⟩
    rw [List.drop_left] at hh
    cases t with
    | nil => exact absurd hh (by simp)
    | cons c t' =>
      simp only [List.head?] at hh
      injection hh with hc
      subst hc
      exact ⟨t', by simp⟩

theorem snoc_pref_snoc {p : FPath} {m n : String}
    (h : (p ++ [m]) <+: (p ++ [n])) : m = n := pref_snoc_ne h

/-! ### Python string order -/

theorem char_toNat_inj {a b : Char} (h : a.toNat = b.toNat) : a = b := by
  apply Char.ext
  exact UInt32.eq_of_val_eq (Fin.ext h)

theorem listCharLe_refl : ∀ l, listCharLe l l = true
  | [] => rfl
  | a :: as => by
    simp only [listCharLe, Nat.lt_irrefl, if_false]
    exact listCharLe_refl as

theorem listCharLe_total : ∀ a b, listCharLe a b = true ∨ listCharLe b a = true
  | [], _ => Or.inl rfl
  | _ :: _, [] => Or.inr rfl
  | a :: as, b :: bs => by
    simp only [listCharLe]
    rcases Nat.lt_trichotomy a.toNat b.toNat with h | h | h
    · left
      simp [h]
    · simp only [h, Nat.lt_irrefl, if_false]
      exact listCharLe_total as bs
    · right
      simp [h]

theorem listCharLe_antisymm : ∀ {a b}, listCharLe a b = true → listCharLe b a = true → a = b
  | [], [], _, _ => rfl
  | [], _ :: _, _, h2 => by simp [listCharLe] at h2
  | _ :: _, [], h1, _ => by simp [listCharLe] at h1
  | a :: as, b :: bs, h1, h2 => by
    simp only [listCharLe] at h1 h2
    rcases Nat.lt_trichotomy a.toNat b.toNat with h | h | h
    · rw [if_neg (by omega : ¬ b.toNat < a.toNat), if_pos h] at h2
      exact absurd h2 (by simp)
    · rw [if_neg (by omega : ¬ a.toNat < b.toNat),
        if_neg (by omega : ¬ b.toNat < a.toNat)] at h1
      rw [if_neg (by omega : ¬ b.toNat < a.toNat),
        if_neg (by omega : ¬ a.toNat < b.toNat)] at h2
      rw [char_toNat_inj h, listCharLe_antisymm h1 h2]
    · rw [if_neg (by omega : ¬ a.toNat < b.toNat), if_pos h] at h1
      exact absurd h1 (by simp)

theorem listCharLe_trans : ∀ {a b c}, listCharLe a b = true → listCharLe b c = true →
    listCharLe a c = true
  | [], _, _, _, _ => rfl
  | _ :: _, [], _, h1, _ => by simp [listCharLe] at h1
  | _ :: _, _ :: _, [], _, h2 => by simp [listCharLe] at h2
  | a :: as, b :: bs, c :: cs, h1, h2 => by
    simp only [listCharLe] at h1 h2 ⊢
    rcases Nat.lt_trichotomy a.toNat b.toNat with hab | hab | hab
    · rcases Nat.lt_trichotomy b.toNat c.toNat with hbc | hbc | hbc
      · rw [if_pos (by omega : a.toNat < c.toNat)]
      · rw [if_pos (by omega : a.toNat < c.toNat)]
      · rw [if_neg (by omega : ¬ b.toNat < c.toNat), if_pos hbc] at h2
        exact absurd h2 (by simp)
    · rcases Nat.lt_trichotomy b.toNat c.toNat with hbc | hbc | hbc
      · rw [if_pos (by omega : a.toNat < c.toNat)]
      · rw [if_neg (by omega : ¬ a.toNat < b.toNat),
          if_neg (by omega : ¬ b.toNat < a.toNat)] at h1
        rw [if_neg (by omega : ¬ b.toNat < c.toNat),
          if_neg (by omega : ¬ c.toNat < b.toNat)] at h2
        rw [if_neg (by omega : ¬ a.toNat < c.toNat),
          if_neg (by omega : ¬ c.toNat < a.toNat)]
        exact listCharLe_trans h1 h2
      · rw [if_neg (by omega : ¬ b.toNat < c.toNat), if_pos hbc] at h2
        exact absurd h2 (by simp)
    · rw [if_neg (by omega : ¬ a.toNat < b.toNat), if_pos hab] at h1
      exact absurd h1 (by simp)

theorem strLe_refl (a : String) : strLe a a = true := listCharLe_refl _

theorem strLe_total (a b : String) : strLe a b = true ∨ strLe b a = true :=
  listCharLe_total _ _

theorem strLe_antisymm {a b : String} (h1 : strLe a b = true) (h2 : strLe b a = true) :
    a = b := by
  cases a
  cases b
  exact congrArg String.mk (listCharLe_antisymm h1 h2)

theorem strLe_trans {a b c : String} (h1 : strLe a b = true) (h2 : strLe b c = true) :
    strLe a c = true := listCharLe_trans h1 h2

instance : IsTotal String (fun a b => strLe a b = true) := ⟨strLe_total⟩

instance : IsTrans String (fun a b => strLe a b = true) := ⟨fun _ _ _ => strLe_trans⟩

instance : IsAntisymm String (fun a b => strLe a b = true) := ⟨fun _ _ => strLe_antisymm⟩

instance : IsRefl String (fun a b => strLe a b = true) := ⟨strLe_refl⟩

theorem sortStr_perm (l : List String) : (sortStr l).Perm l := List.perm_insertionSort _ l

theorem mem_sortStr {n : String} {l : List String} : n ∈ sortStr l ↔ n ∈ l :=
  (sortStr_perm l).mem_iff

theorem sortStr_sorted (l : List String) :
    List.Sorted (fun a b => strLe a b = true) (sortStr l) := List.sorted_insertionSort _ l

theorem sortStr_nodup {l : List String} (h : l.Nodup) : (sortStr l).Nodup :=
  ((sortStr_perm l).nodup_iff).2 h

theorem sortStr_length (l : List String) : (sortStr l).length = l.length :=
  (sortStr_perm l).length_eq

theorem sorted_le_getLast : ∀ {l : List String},
    List.Sorted (fun a b => strLe a b = true) l → (hne : l ≠ []) →
    ∀ x ∈ l, strLe x (l.getLast hne) = true
  | [], _, hne, _, _ => absurd rfl hne
  | [a], _, _, x, hx => by
    rw [List.mem_singleton] at hx
    subst hx
    exact strLe_refl _
  | a :: b :: t, hs, _, x, hx => by
    rw [List.getLast_cons_cons]
    rcases List.mem_cons.1 hx with rfl | hx'
    · exact List.rel_of_sorted_cons hs _ (List.getLast_mem (by simp))
    · exact sorted_le_getLast hs.of_cons (by simp) x hx'

theorem sorted_getLast?_max {l : List String}
    (hs : List.Sorted (fun a b => strLe a b = true) l) {d : String} :
    l.getLast? = some d ↔ d ∈ l ∧ ∀ x ∈ l, strLe x d = true := by
  constructor
  · intro h
    have hne : l ≠ [] := by
      intro he
      subst he
      exact absurd h (by simp)
    rw [List.getLast?_eq_getLast l hne, Option.some.injEq] at h
    subst h
    exact ⟨List.getLast_mem hne, sorted_le_getLast hs hne⟩
  · rintro ⟨hd, hmax⟩
    have hne : l ≠ [] := List.ne_nil_of_mem hd
    rw [List.getLast?_eq_getLast l hne, Option.some.injEq]
    exact strLe_antisymm (hmax _ (List.getLast_mem hne)) (sorted_le_getLast hs hne d hd)

theorem sorted_head?_min {l : List String}
    (hs : List.Sorted (fun a b => strLe a b = true) l) {m : String}
    (h : l.head? = some m) : m ∈ l ∧ ∀ x ∈ l, strLe m x = true := by
  cases l with
  | nil => exact absurd h (by simp)
  | cons a t =>
    simp only [List.head?_cons, Option.some.injEq] at h
    subst h
    refine ⟨List.mem_cons_self _ _, ?_⟩
    intro x hx
    rcases List.mem_cons.1 hx with rfl | hx'
    · exact strLe_refl _
    · exact List.rel_of_sorted_cons hs _ hx'

/-! ### Filesystem lemmas -/

theorem isDir_iff {fs : FS} {p : FPath} : fs.isDir p = true ↔ ∃ d ∈ fs.dirs, p <+: d := by
  unfold FS.isDir
  rw [List.any_eq_true]
  constructor
  · rintro ⟨d, hd, hp⟩
    exact ⟨d, hd, (ipo_iff _ _).1 hp⟩
  · rintro ⟨d, hd, hp⟩
    exact ⟨d, hd, (ipo_iff _ _).2 hp⟩

theorem pathExists_iff {fs : FS} {p : FPath} :
    fs.pathExists p = true ↔ fs.isDir p = true ∨ p ∈ fs.files := by
  unfold FS.pathExists FS.isFile
  rw [Bool.or_eq_true]
  simp only [List.elem_iff]

theorem pathExists_of_isDir {fs : FS} {p : FPath} (h : fs.isDir p = true) :
    fs.pathExists p = true := pathExists_iff.2 (Or.inl h)

theorem isDir_of_pref {fs : FS} {p q : FPath} (hpq : q <+: p) (h : fs.isDir p = true) :
    fs.isDir q = true := by
  obtain ⟨d, hd, hp⟩ := isDir_iff.1 h
  exact isDir_iff.2 ⟨d, hd, hpq.trans hp⟩

theorem isDir_mkdirp_iff {fs : FS} {p q : FPath} :
    (fs.mkdirp p).isDir q = true ↔ q <+: p ∨ fs.isDir q = true := by
  unfold FS.mkdirp
  rw [isDir_iff, isDir_iff]
  simp only [List.mem_cons]
  constructor
  · rintro ⟨d, rfl | hd, hp⟩
    · exact Or.inl hp
    · exact Or.inr ⟨d, hd, hp⟩
  · rintro (hp | ⟨d, hd, hp⟩)
    · exact ⟨p, Or.inl rfl, hp⟩
    · exact ⟨d, Or.inr hd, hp⟩

theorem isDir_mkdirp_of {fs : FS} {p q : FPath} (h : fs.isDir q = true) :
    (fs.mkdirp p).isDir q = true := isDir_mkdirp_iff.2 (Or.inr h)

theorem isDir_rmtree_iff {fs : FS} {p q : FPath} :
    (fs.rmtree p).isDir q = true ↔ ∃ d ∈ fs.dirs, q <+: d ∧ ¬ (p <+: d) := by
  unfold FS.rmtree
  rw [isDir_iff]
  simp only [List.mem_filter, Bool.not_eq_eq_eq_not, Bool.not_true,
    ← Bool.not_eq_true, ipo_iff]
  constructor
  · rintro ⟨d, ⟨hd, hnp⟩, hq⟩
    exact ⟨d, hd, hq, hnp⟩
  · rintro ⟨d, hd, hq, hnp⟩
    exact ⟨d, ⟨hd, hnp⟩, hq⟩

theorem isDir_rmtree_of_incomp {fs : FS} {p q : FPath} (h : fs.isDir q = true)
    (h1 : ¬ (p <+: q)) (h2 : ¬ (q <+: p)) : (fs.rmtree p).isDir q = true := by
  obtain ⟨d, hd, hq⟩ := isDir_iff.1 h
  refine isDir_rmtree_iff.2 ⟨d, hd, hq, fun hp => ?_⟩
  rcases pref_comp hp hq with hc | hc
  · exact h1 hc
  · exact h2 hc

theorem isDir_rmtree_self_false {fs : FS} {p q : FPath} (h : p <+: q) :
    (fs.rmtree p).isDir q = false := by
  rw [← Bool.not_eq_true, isDir_rmtree_iff]
  rintro ⟨d, _, hq, hnp⟩
  exact hnp (h.trans hq)

theorem isDir_rmtree_sub {fs : FS} {p q : FPath} (h : (fs.rmtree p).isDir q = true) :
    fs.isDir q = true := by
  obtain ⟨d, hd, hq, _⟩ := isDir_rmtree_iff.1 h
  exact isDir_iff.2 ⟨d, hd, hq⟩

theorem rmtree_files_sub {fs : FS} {p : FPath} {f : FPath}
    (h : f ∈ (fs.rmtree p).files) : f ∈ fs.files := (List.mem_filter.1 h).1

theorem mkdirp_files {fs : FS} {p : FPath} : (fs.mkdirp p).files = fs.files := rfl

theorem mem_listdir_iff {fs : FS} {p : FPath} {n : String} :
    n ∈ fs.listdir p ↔ ∃ q, (q ∈ fs.dirs ∨ q ∈ fs.files) ∧ (p ++ [n]) <+: q := by
  unfold FS.listdir
  rw [List.mem_dedup, List.mem_filterMap]
  constructor
  · rintro ⟨q, hq, hf⟩
    rw [List.mem_append] at hq
    by_cases hp : p.isPrefixOf q = true
    · rw [if_pos hp] at hf
      exact ⟨q, hq, snoc_pref_iff.2 ⟨(ipo_iff _ _).1 hp, hf⟩⟩
    · rw [if_neg hp] at hf
      exact absurd hf (by simp)
  · rintro ⟨q, hq, hpref⟩
    obtain ⟨hp, hh⟩ := snoc_pref_iff.1 hpref
    refine ⟨q, List.mem_append.2 hq, ?_⟩
    rw [if_pos ((ipo_iff _ _).2 hp)]
    exact hh

theorem listdir_nodup (fs : FS) (p : FPath) : (fs.listdir p).Nodup := List.nodup_dedup _

theorem listdir_mkdirp_iff {fs : FS} {p r : FPath} {n : String} :
    n ∈ (fs.mkdirp p).listdir r ↔ (r ++ [n]) <+: p ∨ n ∈ fs.listdir r := by
  rw [mem_listdir_iff, mem_listdir_iff]
  unfold FS.mkdirp
  simp only [List.mem_cons]
  constructor
  · rintro ⟨q, (rfl | hq) | hq, hpref⟩
    · exact Or.inl hpref
    · exact Or.inr ⟨q, Or.inl hq, hpref⟩
    · exact Or.inr ⟨q, Or.inr hq, hpref⟩
  · rintro (hpref | ⟨q, hq, hpref⟩)
    · exact ⟨p, Or.inl (Or.inl rfl), hpref⟩
    · rcases hq with hq | hq
      · exact ⟨q, Or.inl (Or.inr hq), hpref⟩
      · exact ⟨q, Or.inr hq, hpref⟩

theorem listdir_rmtree_sub {fs : FS} {p r : FPath} {n : String}
    (h : n ∈ (fs.rmtree p).listdir r) : n ∈ fs.listdir r := by
  obtain ⟨q, hq, hpref⟩ := mem_listdir_iff.1 h
  unfold FS.rmtree at hq
  rcases hq with hq | hq
  · exact mem_listdir_iff.2 ⟨q, Or.inl (List.mem_filter.1 hq).1, hpref⟩
  · exact mem_listdir_iff.2 ⟨q, Or.inr (List.mem_filter.1 hq).1, hpref⟩

theorem listdir_rmtree_child_false {fs : FS} {r : FPath} {n : String} :
    ¬ (n ∈ (fs.rmtree (r ++ [n])).listdir r) := by
  intro h
  obtain ⟨q, hq, hpref⟩ := mem_listdir_iff.1 h
  unfold FS.rmtree at hq
  rcases hq with hq | hq
  all_goals {
    obtain ⟨_, hf⟩ := List.mem_filter.1 hq
    rw [Bool.not_eq_eq_eq_not, Bool.not_true, ← Bool.not_eq_true, ipo_iff] at hf
    exact hf hpref
  }

/-! ### Listing lemmas for the embedded store -/

theorem mem_good_iff {valid : String → Bool} {fs : FS} {target : FPath} {n : String} :
    n ∈ get_old_backup_dates valid fs target ↔
      fs.isDir target = true ∧ valid n = true ∧ n ∈ fs.listdir target := by
  unfold get_old_backup_dates
  by_cases hdir : fs.isDir target = true
  · rw [if_neg (by rw [pathExists_of_isDir hdir, hdir]; simp)]
    rw [mem_sortStr, List.mem_filter]
    constructor
    · rintro ⟨hm, hv⟩
      exact ⟨hdir, hv, hm⟩
    · rintro ⟨_, hv, hm⟩
      exact ⟨hm, hv⟩
  · have hdir' : fs.isDir target = false := by rwa [Bool.not_eq_true] at hdir
    rw [if_pos (by rw [hdir']; simp)]
    simp [hdir']

theorem good_sorted (valid : String → Bool) (fs : FS) (target : FPath) :
    List.Sorted (fun a b => strLe a b = true) (get_old_backup_dates valid fs target) := by
  unfold get_old_backup_dates
  split
  · exact List.sorted_nil
  · exact sortStr_sorted _

theorem good_nodup (valid : String → Bool) (fs : FS) (target : FPath) :
    (get_old_backup_dates valid fs target).Nodup := by
  unfold get_old_backup_dates
  split
  · exact List.nodup_nil
  · exact sortStr_nodup ((listdir_nodup fs target).filter valid)

theorem mem_gobd_iff {fs : FS} {target : FPath} {dates : List String} {directory : FPath}
    {d : String} :
    d ∈ get_old_backup_directories fs target dates directory ↔
      d ∈ dates ∧ fs.isDir (target ++ [d] ++ directory) = true := by
  unfold get_old_backup_directories
  rw [mem_sortStr]
  split
  · rename_i h
    rw [List.isEmpty_iff] at h
    subst h
    simp
  · rw [List.mem_filter]

theorem sortStr_eq_nil_iff {l : List String} : sortStr l = [] ↔ l = [] := by
  constructor
  · intro h
    have := sortStr_length l
    rw [h] at this
    exact List.length_eq_zero.1 this.symm
  · intro h
    subst h
    rfl

theorem prune_step_le {fs : FS} {target : FPath} {dates : List String} {r : Nat}
    (h : ¬ dates.length > r) : prune_step fs target dates r = fs := by
  unfold prune_step
  rw [if_neg h]

theorem prune_step_gt_cons {fs : FS} {target : FPath} {m : String} {rest : List String}
    {r : Nat} (hlen : (m :: rest).length > r) (hdir : fs.isDir (target ++ [m]) = true) :
    prune_step fs target (m :: rest) r = fs.rmtree (target ++ [m]) := by
  unfold prune_step
  rw [if_pos hlen]
  simp only [hdir, if_true]

theorem prune_step_gt_cons_notdir {fs : FS} {target : FPath} {m : String}
    {rest : List String} {r : Nat} (hlen : (m :: rest).length > r)
    (hdir : fs.isDir (target ++ [m]) = false) :
    prune_step fs target (m :: rest) r = fs := by
  unfold prune_step
  rw [if_pos hlen]
  simp [hdir]

theorem mapM_eq_none_of_mem {f : List String → Option String} :
    ∀ {l : List (List String)} {x : List String}, x ∈ l → f x = none →
      l.mapM f = none := by
  intro l
  induction l with
  | nil => intro x hx; exact absurd hx (by simp)
  | cons a t ih =>
    intro x hx hf
    rw [List.mapM_cons]
    rcases List.mem_cons.1 hx with rfl | hx'
    · rw [hf]
      rfl
    · rw [ih hx' hf]
      cases f a <;> rfl

theorem mapM_isSome_of_all {f : List String → Option String} :
    ∀ {l : List (List String)}, (∀ x ∈ l, (f x).isSome = true) →
      (l.mapM f).isSome = true := by
  intro l
  induction l with
  | nil => intro _; rfl
  | cons a t ih =>
    intro h
    rw [List.mapM_cons]
    have ha := h a (List.mem_cons_self a t)
    have ht := ih (fun x hx => h x (List.mem_cons_of_mem a hx))
    cases hfa : f a with
    | none => rw [hfa] at ha; exact absurd ha (by simp)
    | some y =>
      cases hft : t.mapM f with
      | none => rw [hft] at ht; exact absurd ht (by simp)
      | some ys => rfl

theorem renderComps_append : ∀ (xs : List String) {ys : List String}, xs ≠ [] → ys ≠ [] →
    renderComps (xs ++ ys) = renderComps xs ++ "/" ++ renderComps ys
  | [], _, hxs, _ => absurd rfl hxs
  | [_], [], _, hys => absurd rfl hys
  | [_], _ :: _, _, _ => rfl
  | x :: x2 :: xs, ys, _, hys => by
    have ih := renderComps_append (x2 :: xs) (by simp) hys
    calc renderComps ((x :: x2 :: xs) ++ ys)
        = x ++ "/" ++ renderComps ((x2 :: xs) ++ ys) := rfl
      _ = x ++ "/" ++ (renderComps (x2 :: xs) ++ "/" ++ renderComps ys) := by rw [ih]
      _ = renderComps (x :: x2 :: xs) ++ "/" ++ renderComps ys := by
          simp only [renderComps, String.append_assoc]

theorem getLast?_append_pair (L : List String) (x y : String) :
    (L ++ [x, y]).getLast? = some y := by
  rw [show L ++ [x, y] = (L ++ [x]) ++ [y] by simp]
  exact List.getLast?_concat _

theorem renderFPath_snoc_append (A : Bool) (base : FPath) (hbase : base ≠ [])
    (x c : String) (cs : List String) :
    renderFPath A (base ++ x :: c :: cs) =
      renderFPath A base ++ "/" ++ x ++ "/" ++ renderComps (c :: cs) := by
  unfold renderFPath
  rw [renderComps_append base hbase (by simp)]
  have h2 : renderComps (x :: c :: cs) = x ++ "/" ++ renderComps (c :: cs) := rfl
  rw [h2]
  simp [String.append_assoc]

theorem rsyncDirs_isDir_mono (cfg : Config) (srv : ServerCfg) (target : FPath)
    (dates : List String) :
    ∀ (ds : List PyPath) (fs : FS) {q : FPath}, fs.isDir q = true →
      ((rsyncDirs cfg srv target dates ds fs).1).isDir q = true
  | [], _, _, h => h
  | directory :: rest, fs, q, h => by
    simp only [rsyncDirs]
    split
    · exact rsyncDirs_isDir_mono cfg srv target dates rest fs h
    · exact rsyncDirs_isDir_mono cfg srv target dates rest _ (isDir_mkdirp_of h)

theorem rsyncServer_isDir_mono_of_le {cfg : Config} {fs : FS} {srv : ServerCfg}
    (hle : (get_old_backup_dates cfg.valid fs (cfg.targetOf srv)).length ≤
      cfg.number_of_versions) {q : FPath} (hq : fs.isDir q = true) :
    ((rsyncServer cfg fs srv).1).isDir q = true := by
  simp only [rsyncServer]
  rw [prune_step_le (by omega)]
  exact rsyncDirs_isDir_mono _ _ _ _ _ _ (isDir_mkdirp_of hq)

/-! ### Run-level machinery -/

theorem append_pair_assoc (a : FPath) (x : String) (u : FPath) :
    a ++ [x] ++ u = a ++ x :: u := by simp

theorem pref_comp_eq {a : FPath} {x y : String} {u v : FPath}
    (h : (a ++ x :: u) <+: (a ++ y :: v)) : x = y :=
  pref_snoc_ne (pref_snoc_of_cons.trans h)

theorem pref_eq_of_ge {p q : FPath} (h : p <+: q) (hl : q.length ≤ p.length) : p = q := by
  obtain ⟨t, ht⟩ := h
  have hlen : t.length = 0 := by
    have h2 := congrArg List.length ht
    rw [List.length_append] at h2
    omega
  rw [List.length_eq_zero] at hlen
  subst hlen
  rw [List.append_nil] at ht
  exact ht

theorem pref_snoc_split {q base : FPath} {x : String} (h : q <+: base ++ [x]) :
    q <+: base ∨ q = base ++ [x] := by
  rcases Nat.lt_or_ge q.length (base ++ [x]).length with hl | hl
  · left
    refine List.prefix_of_prefix_length_le h (List.prefix_append base [x]) ?_
    rw [List.length_append] at hl
    simp only [List.length_singleton] at hl
    omega
  · right
    exact pref_eq_of_ge h hl

theorem ipo_false_of_not {p q : FPath} (h : ¬ p <+: q) : p.isPrefixOf q = false := by
  rw [← Bool.not_eq_true, ipo_iff]
  exact h

theorem ipo_false_elim {p q : FPath} (h : p.isPrefixOf q = false) : ¬ p <+: q := by
  rw [← ipo_iff p q, h]
  simp

theorem rsyncDirs_files (cfg : Config) (srv : ServerCfg) (target : FPath)
    (dates : List String) :
    ∀ (ds : List PyPath) (fs : FS),
      ((rsyncDirs cfg srv target dates ds fs).1).files = fs.files
  | [], _ => rfl
  | directory :: rest, fs => by
    simp only [rsyncDirs]
    split
    · exact rsyncDirs_files cfg srv target dates rest fs
    · exact rsyncDirs_files cfg srv target dates rest _

theorem rsyncDirs_dirs_shape (cfg : Config) (srv : ServerCfg) (target : FPath)
    (dates : List String) :
    ∀ (ds : List PyPath) (fs : FS),
      ∃ new, ((rsyncDirs cfg srv target dates ds fs).1).dirs = new ++ fs.dirs ∧
        ∀ p ∈ new, (target ++ [cfg.backup_date]) <+: p
  | [], fs => ⟨[], rfl, by simp⟩
  | directory :: rest, fs => by
    simp only [rsyncDirs]
    split
    · exact rsyncDirs_dirs_shape cfg srv target dates rest fs
    · obtain ⟨new, hnew, hpref⟩ := rsyncDirs_dirs_shape cfg srv target dates rest
        (fs.mkdirp (target ++ [cfg.backup_date] ++ directory.comps))
      refine ⟨new ++ [target ++ [cfg.backup_date] ++ directory.comps], ?_, ?_⟩
      · rw [hnew]
        simp [FS.mkdirp]
      · intro p hp
        rcases List.mem_append.1 hp with hp | hp
        · exact hpref p hp
        · rw [List.mem_singleton] at hp
          subst hp
          exact ⟨directory.comps, rfl⟩

theorem rsyncDirs_create (cfg : Config) (srv : ServerCfg) (target : FPath)
    (dates : List String) :
    ∀ (ds : List PyPath) (fs : FS),
      (∀ p ∈ ds, (target ++ [cfg.backup_date] ++ p.comps) ∉ fs.files) →
      ∀ p ∈ ds, ((rsyncDirs cfg srv target dates ds fs).1).isDir
        (target ++ [cfg.backup_date] ++ p.comps) = true
  | [], _, _, _, hp => absurd hp (by simp)
  | directory :: rest, fs, hfiles, p, hp => by
    simp only [rsyncDirs]
    split
    · rename_i hex
      rcases List.mem_cons.1 hp with rfl | hp'
      · have hdir : fs.isDir (target ++ [cfg.backup_date] ++ p.comps) = true := by
          rcases pathExists_iff.1 hex with h | h
          · exact h
          · exact absurd h (hfiles p (List.mem_cons_self _ _))
        exact rsyncDirs_isDir_mono cfg srv target dates rest fs hdir
      · exact rsyncDirs_create cfg srv target dates rest fs
          (fun q hq => hfiles q (List.mem_cons_of_mem _ hq)) p hp'
    · rcases List.mem_cons.1 hp with rfl | hp'
      · show ((rsyncDirs cfg srv target dates rest
            (fs.mkdirp (target ++ [cfg.backup_date] ++ p.comps))).1).isDir
            (target ++ [cfg.backup_date] ++ p.comps) = true
        exact rsyncDirs_isDir_mono cfg srv target dates rest _
          (isDir_mkdirp_iff.2 (Or.inl (List.prefix_refl _)))
      · show ((rsyncDirs cfg srv target dates rest
            (fs.mkdirp (target ++ [cfg.backup_date] ++ directory.comps))).1).isDir
            (target ++ [cfg.backup_date] ++ p.comps) = true
        exact rsyncDirs_create cfg srv target dates rest
          (fs.mkdirp (target ++ [cfg.backup_date] ++ directory.comps))
          (fun q hq => hfiles q (List.mem_cons_of_mem _ hq)) p hp'

theorem rsyncDirs_skip (cfg : Config) (srv : ServerCfg) (target : FPath)
    (dates : List String) :
    ∀ (ds : List PyPath) (fs : FS),
      (∀ p ∈ ds, fs.pathExists (target ++ [cfg.backup_date] ++ p.comps) = true) →
      rsyncDirs cfg srv target dates ds fs = (fs, [])
  | [], fs, _ => rfl
  | directory :: rest, fs, hex => by
    simp only [rsyncDirs]
    rw [if_pos (hex directory (List.mem_cons_self _ _))]
    exact rsyncDirs_skip cfg srv target dates rest fs
      (fun p hp => hex p (List.mem_cons_of_mem _ hp))

theorem prune_step_cases (fs : FS) (target : FPath) (dates : List String) (r : Nat) :
    prune_step fs target dates r = fs ∨
      ∃ m rest, dates = m :: rest ∧ dates.length > r ∧
        fs.isDir (target ++ [m]) = true ∧
        prune_step fs target dates r = fs.rmtree (target ++ [m]) := by
  by_cases hlen : dates.length > r
  · cases dates with
    | nil => exact absurd hlen (by simp)
    | cons m rest =>
      by_cases hdir : fs.isDir (target ++ [m]) = true
      · exact Or.inr ⟨m, rest, rfl, hlen, hdir, prune_step_gt_cons hlen hdir⟩
      · rw [Bool.not_eq_true] at hdir
        exact Or.inl (prune_step_gt_cons_notdir hlen hdir)
  · exact Or.inl (prune_step_le hlen)

theorem prune_step_dirs_sub {fs : FS} {target : FPath} {dates : List String} {r : Nat}
    {q : FPath} (hq : q ∈ (prune_step fs target dates r).dirs) : q ∈ fs.dirs := by
  rcases prune_step_cases fs target dates r with h | ⟨m, rest, _, _, _, h⟩
  · rwa [h] at hq
  · rw [h] at hq
    exact (List.mem_filter.1 hq).1

theorem prune_step_files_sub {fs : FS} {target : FPath} {dates : List String} {r : Nat}
    {f : FPath} (hf : f ∈ (prune_step fs target dates r).files) : f ∈ fs.files := by
  rcases prune_step_cases fs target dates r with h | ⟨m, rest, _, _, _, h⟩
  · rwa [h] at hf
  · rw [h] at hf
    exact (List.mem_filter.1 hf).1

theorem prune_step_isDir_pres {fs : FS} {target : FPath} {dates : List String} {r : Nat}
    {q : FPath} (hq : fs.isDir q = true)
    (hinc : ∀ m ∈ dates, ¬ ((target ++ [m]) <+: q) ∧ ¬ (q <+: target ++ [m])) :
    (prune_step fs target dates r).isDir q = true := by
  rcases prune_step_cases fs target dates r with h | ⟨m, rest, hd, _, _, h⟩
  · rwa [h]
  · rw [h]
    have hm : m ∈ dates := by
      rw [hd]
      exact List.mem_cons_self _ _
    exact isDir_rmtree_of_incomp hq (hinc m hm).1 (hinc m hm).2

instance (fs : FS) (p : FPath) : Decidable (fs.dateFresh p) := by
  unfold FS.dateFresh
  infer_instance

theorem dateFresh_not_mem {fs : FS} {target : FPath} {bd : String} {valid : String → Bool}
    (hf : fs.dateFresh (target ++ [bd])) : bd ∉ get_old_backup_dates valid fs target := by
  intro hmem
  obtain ⟨_, _, hl⟩ := mem_good_iff.1 hmem
  obtain ⟨q, hq, hpref⟩ := mem_listdir_iff.1 hl
  rcases hq with hq | hq
  · exact ipo_false_elim (hf.1 q hq) hpref
  · exact ipo_false_elim (hf.2 q hq) hpref

theorem dateFresh_no_obj_file {fs : FS} {target : FPath} {bd : String} {comps : FPath}
    (hf : fs.dateFresh (target ++ [bd])) : (target ++ [bd] ++ comps) ∉ fs.files := by
  intro hmem
  exact ipo_false_elim (hf.2 _ hmem) ⟨comps, rfl⟩

theorem rsyncServer_files_sub {cfg : Config} {fs : FS} {srv : ServerCfg} :
    ∀ f ∈ ((rsyncServer cfg fs srv).1).files, f ∈ fs.files := by
  intro f hf
  simp only [rsyncServer] at hf
  have h1 := prune_step_files_sub hf
  rw [rsyncDirs_files] at h1
  exact h1

theorem rsyncServer_create {cfg : Config} {fs : FS} {srv : ServerCfg}
    (hfresh : fs.dateFresh (cfg.targetOf srv ++ [cfg.backup_date])) :
    ∀ de ∈ srv.directory_list,
      ((rsyncServer cfg fs srv).1).isDir
        (cfg.targetOf srv ++ [cfg.backup_date] ++ de.1.comps) = true := by
  intro de hde
  simp only [rsyncServer]
  apply prune_step_isDir_pres
  · exact rsyncDirs_create cfg srv (cfg.targetOf srv) _ (srv.directory_list.map Prod.fst)
      (fs.mkdirp (cfg.targetOf srv))
      (fun p _ hmem => dateFresh_no_obj_file hfresh hmem)
      de.1 (List.mem_map_of_mem Prod.fst hde)
  · intro m hm
    have hmne : m ≠ cfg.backup_date := by
      intro he
      subst he
      exact dateFresh_not_mem hfresh hm
    constructor
    · rw [append_pair_assoc]
      exact pref_incomp hmne
    · rw [append_pair_assoc]
      exact pref_incomp (Ne.symm hmne)

theorem rsyncServer_isDir_pres {cfg : Config} {fs : FS} {srv : ServerCfg} {q : FPath}
    (hq : fs.isDir q = true) :
    ((rsyncServer cfg fs srv).1).isDir q = true ∨
      ∃ m ∈ get_old_backup_dates cfg.valid fs (cfg.targetOf srv),
        ((cfg.targetOf srv ++ [m]) <+: q ∨ q <+: (cfg.targetOf srv ++ [m])) := by
  simp only [rsyncServer]
  have hloop : ((rsyncDirs cfg srv (cfg.targetOf srv)
      (get_old_backup_dates cfg.valid fs (cfg.targetOf srv))
      (srv.directory_list.map Prod.fst) (fs.mkdirp (cfg.targetOf srv))).1).isDir q = true :=
    rsyncDirs_isDir_mono _ _ _ _ _ _ (isDir_mkdirp_of hq)
  rcases prune_step_cases ((rsyncDirs cfg srv (cfg.targetOf srv)
      (get_old_backup_dates cfg.valid fs (cfg.targetOf srv))
      (srv.directory_list.map Prod.fst) (fs.mkdirp (cfg.targetOf srv))).1)
      (cfg.targetOf srv) (get_old_backup_dates cfg.valid fs (cfg.targetOf srv))
      cfg.number_of_versions with h | ⟨m, rest, hd, _, _, h⟩
  · left
    rw [h]
    exact hloop
  · by_cases hc : ((cfg.targetOf srv ++ [m]) <+: q ∨ q <+: (cfg.targetOf srv ++ [m]))
    · right
      refine ⟨m, ?_, hc⟩
      rw [hd]
      exact List.mem_cons_self _ _
    · push_neg at hc
      left
      rw [h]
      exact isDir_rmtree_of_incomp hloop hc.1 hc.2

theorem rsyncServer_dirs_shape {cfg : Config} {fs : FS} {srv : ServerCfg} :
    ∀ q ∈ ((rsyncServer cfg fs srv).1).dirs,
      q ∈ fs.dirs ∨ q = cfg.targetOf srv ∨
        (cfg.targetOf srv ++ [cfg.backup_date]) <+: q := by
  intro q hq
  simp only [rsyncServer] at hq
  have h1 := prune_step_dirs_sub hq
  obtain ⟨new, hnew, hpref⟩ := rsyncDirs_dirs_shape cfg srv (cfg.targetOf srv)
    (get_old_backup_dates cfg.valid fs (cfg.targetOf srv))
    (srv.directory_list.map Prod.fst) (fs.mkdirp (cfg.targetOf srv))
  rw [hnew] at h1
  rcases List.mem_append.1 h1 with h | h
  · exact Or.inr (Or.inr (hpref q h))
  · rcases List.mem_cons.1 h with rfl | h
    · exact Or.inr (Or.inl rfl)
    · exact Or.inl h

theorem rsyncServer_listdir_sub {cfg : Config} {fs : FS} {srv : ServerCfg} {r : FPath}
    {n : String} (h : n ∈ ((rsyncServer cfg fs srv).1).listdir r) :
    n ∈ fs.listdir r ∨ (r ++ [n]) <+: cfg.targetOf srv ∨
      (cfg.targetOf srv ++ [cfg.backup_date]) <+: (r ++ [n]) := by
  obtain ⟨q, hq, hpref⟩ := mem_listdir_iff.1 h
  rcases hq with hq | hq
  · rcases rsyncServer_dirs_shape q hq with h1 | h1 | h1
    · exact Or.inl (mem_listdir_iff.2 ⟨q, Or.inl h1, hpref⟩)
    · subst h1
      exact Or.inr (Or.inl hpref)
    · rcases pref_comp h1 hpref with hc | hc
      · exact Or.inr (Or.inr hc)
      · rcases pref_snoc_split hc with hc2 | hc2
        · exact Or.inr (Or.inl hc2)
        · rw [hc2]
          exact Or.inr (Or.inr (List.prefix_refl _))
  · exact Or.inl (mem_listdir_iff.2 ⟨q, Or.inr (rsyncServer_files_sub q hq), hpref⟩)

theorem rsyncServer_skip {cfg : Config} {fs : FS} {srv : ServerCfg}
    (hex : ∀ de ∈ srv.directory_list,
      fs.isDir (cfg.targetOf srv ++ [cfg.backup_date] ++ de.1.comps) = true) :
    (rsyncServer cfg fs srv).2 = [] := by
  simp only [rsyncServer]
  have hskip := rsyncDirs_skip cfg srv (cfg.targetOf srv)
    (get_old_backup_dates cfg.valid fs (cfg.targetOf srv))
    (srv.directory_list.map Prod.fst) (fs.mkdirp (cfg.targetOf srv)) (by
      intro p hp
      obtain ⟨de, hde, rfl⟩ := List.mem_map.1 hp
      exact pathExists_of_isDir (isDir_mkdirp_of (hex de hde)))
  rw [hskip]

theorem rsyncServers_none_cons (cfg : Config) (srv : ServerCfg) (rest : List ServerCfg)
    (fs : FS) :
    rsyncServers cfg none (srv :: rest) fs =
      ((rsyncServers cfg none rest (rsyncServer cfg fs srv).1).1,
       (rsyncServer cfg fs srv).2 ++
         (rsyncServers cfg none rest (rsyncServer cfg fs srv).1).2) := by
  simp only [rsyncServers]
  rw [if_neg (by simp)]

theorem gobd_length_le (fs : FS) (target : FPath) (dates : List String) (dir : FPath) :
    (get_old_backup_directories fs target dates dir).length ≤ dates.length := by
  unfold get_old_backup_directories
  rw [sortStr_length]
  split
  · simp
  · exact List.length_filter_le _ _

theorem rsyncServers_spec (cfg : Config) (hvalid : cfg.valid cfg.backup_date = true) :
    ∀ (rest : List ServerCfg) (fs : FS),
      ((rest.map ServerCfg.name).Nodup) →
      (∀ srv ∈ rest, fs.dateFresh (cfg.targetOf srv ++ [cfg.backup_date])) →
      ((∀ f ∈ ((rsyncServers cfg none rest fs).1).files, f ∈ fs.files)
      ∧ (∀ q ∈ ((rsyncServers cfg none rest fs).1).dirs,
          q ∈ fs.dirs ∨ ∃ srv ∈ rest, q = cfg.targetOf srv ∨
            (cfg.targetOf srv ++ [cfg.backup_date]) <+: q)
      ∧ (∀ q, fs.isDir q = true →
          ((rsyncServers cfg none rest fs).1).isDir q = true ∨
            ∃ srv ∈ rest, ∃ m, m ≠ cfg.backup_date ∧
              ((cfg.targetOf srv ++ [m]) <+: q ∨ q <+: (cfg.targetOf srv ++ [m])))
      ∧ (∀ srv ∈ rest, ∀ de ∈ srv.directory_list,
          ((rsyncServers cfg none rest fs).1).isDir
            (cfg.targetOf srv ++ [cfg.backup_date] ++ de.1.comps) = true))
  | [], fs, _, _ => by
    refine ⟨fun f hf => hf, fun q hq => Or.inl hq, fun q hq => Or.inl hq, ?_⟩
    intro srv hsrv
    exact absurd hsrv (by simp)
  | srv :: rest', fs, hnd, hfresh => by
    have hndc := List.nodup_cons.1 hnd
    have hfr_srv := hfresh srv (List.mem_cons_self _ _)
    have hfresh' : ∀ t ∈ rest',
        ((rsyncServer cfg fs srv).1).dateFresh (cfg.targetOf t ++ [cfg.backup_date]) := by
      intro t ht
      have hne : t.name ≠ srv.name := by
        intro he
        exact hndc.1 (he ▸ List.mem_map_of_mem ServerCfg.name ht)
      constructor
      · intro e he
        rcases rsyncServer_dirs_shape e he with h1 | h1 | h1
        · exact (hfresh t (List.mem_cons_of_mem _ ht)).1 e h1
        · subst h1
          apply ipo_false_of_not
          intro hpre
          have hl := hpre.length_le
          have e1 : (cfg.targetOf t ++ [cfg.backup_date]).length = cfg.root.length + 2 := by
            simp [Config.targetOf]
          have e2 : (cfg.targetOf srv).length = cfg.root.length + 1 := by
            simp [Config.targetOf]
          omega
        · apply ipo_false_of_not
          intro hpre
          have hcomp := pref_comp hpre h1
          simp only [Config.targetOf, List.append_assoc, List.cons_append, List.nil_append,
            List.singleton_append] at hcomp
          rcases hcomp with hc | hc
          · exact hne (pref_comp_eq hc)
          · exact hne (pref_comp_eq hc).symm
      · intro e he
        exact (hfresh t (List.mem_cons_of_mem _ ht)).2 e (rsyncServer_files_sub e he)
    obtain ⟨ih1, ih2, ih3, ih4⟩ :=
      rsyncServers_spec cfg hvalid rest' (rsyncServer cfg fs srv).1 hndc.2 hfresh'
    rw [rsyncServers_none_cons]
    refine ⟨?_, ?_, ?_, ?_⟩
    · intro f hf
      exact rsyncServer_files_sub f (ih1 f hf)
    · intro q hq
      rcases ih2 q hq with h1 | ⟨t, ht, h1⟩
      · rcases rsyncServer_dirs_shape q h1 with h2 | h2 | h2
        · exact Or.inl h2
        · exact Or.inr ⟨srv, List.mem_cons_self _ _, Or.inl h2⟩
        · exact Or.inr ⟨srv, List.mem_cons_self _ _, Or.inr h2⟩
      · exact Or.inr ⟨t, List.mem_cons_of_mem _ ht, h1⟩
    · intro q hq
      rcases rsyncServer_isDir_pres hq with h1 | ⟨m, hm, hc⟩
      · rcases ih3 q h1 with h2 | ⟨t, ht, m, hmne, hc⟩
        · exact Or.inl h2
        · exact Or.inr ⟨t, List.mem_cons_of_mem _ ht, m, hmne, hc⟩
      · refine Or.inr ⟨srv, List.mem_cons_self _ _, m, ?_, hc⟩
        intro he
        subst he
        exact dateFresh_not_mem hfr_srv hm
    · intro t ht de hde
      rcases List.mem_cons.1 ht with rfl | ht'
      · have hcre := rsyncServer_create hfr_srv de hde
        rcases ih3 _ hcre with h2 | ⟨u, hu, m, _, hc⟩
        · exact h2
        · exfalso
          have hneu : u.name ≠ t.name := by
            intro he
            exact hndc.1 (he ▸ List.mem_map_of_mem ServerCfg.name hu)
          simp only [Config.targetOf, List.append_assoc, List.cons_append, List.nil_append,
            List.singleton_append] at hc
          rcases hc with hc | hc
          · exact hneu (pref_comp_eq hc)
          · exact hneu (pref_comp_eq hc).symm
      · exact ih4 t ht' de hde

theorem rsyncServers_skip (cfg : Config) :
    ∀ (rest : List ServerCfg) (fs : FS),
      ((rest.map ServerCfg.name).Nodup) →
      (∀ srv ∈ rest, ∀ de ∈ srv.directory_list,
        fs.isDir (cfg.targetOf srv ++ [cfg.backup_date] ++ de.1.comps) = true) →
      (rsyncServers cfg none rest fs).2 = []
  | [], _, _, _ => rfl
  | srv :: rest', fs, hnd, hex => by
    have hndc := List.nodup_cons.1 hnd
    rw [rsyncServers_none_cons]
    have h1 : (rsyncServer cfg fs srv).2 = [] :=
      rsyncServer_skip (fun de hde => hex srv (List.mem_cons_self _ _) de hde)
    have h2 : (rsyncServers cfg none rest' (rsyncServer cfg fs srv).1).2 = [] := by
      apply rsyncServers_skip cfg rest' _ hndc.2
      intro t ht de hde
      rcases rsyncServer_isDir_pres (hex t (List.mem_cons_of_mem _ ht) de hde)
        with h | ⟨m, _, hc⟩
      · exact h
      · exfalso
        have hne : srv.name ≠ t.name := by
          intro he
          exact hndc.1 (he ▸ List.mem_map_of_mem ServerCfg.name ht)
        simp only [Config.targetOf, List.append_assoc, List.cons_append, List.nil_append,
          List.singleton_append] at hc
        rcases hc with hc | hc
        · exact hne (pref_comp_eq hc)
        · exact hne (pref_comp_eq hc).symm
    show (rsyncServer cfg fs srv).2 ++
      (rsyncServers cfg none rest' (rsyncServer cfg fs srv).1).2 = []
    rw [h1, h2]
    rfl

/-! ### Claim theorems -/

/-- C1: for the retention step of `__rsync` (lines 244-250), evaluated
against the snapshot-date list it examines (all of whose dates name
snapshot directories): if the list has more than `r` dates, exactly one
snapshot is removed, namely the directory tree of the lexicographically
smallest (oldest) date, every other listed date surviving; with at most
`r` dates nothing is removed.  Never more than one snapshot is removed
per server root per run. -/
theorem spec_C1 (valid : String → Bool) (fs : FS) (target_location : FPath) (r : Nat)
    (hdirs : ∀ d ∈ get_old_backup_dates valid fs target_location,
      fs.isDir (target_location ++ [d]) = true) :
    (∀ m, (get_old_backup_dates valid fs target_location).head? = some m →
      (get_old_backup_dates valid fs target_location).length > r →
      (m ∈ get_old_backup_dates valid fs target_location
        ∧ (∀ d ∈ get_old_backup_dates valid fs target_location, strLe m d = true)
        ∧ prune_step fs target_location (get_old_backup_dates valid fs target_location) r =
            fs.rmtree (target_location ++ [m])
        ∧ (prune_step fs target_location (get_old_backup_dates valid fs target_location)
            r).isDir (target_location ++ [m]) = false
        ∧ ∀ d ∈ get_old_backup_dates valid fs target_location, d ≠ m →
            (prune_step fs target_location (get_old_backup_dates valid fs target_location)
              r).isDir (target_location ++ [d]) = true))
    ∧ ((get_old_backup_dates valid fs target_location).length ≤ r →
        prune_step fs target_location (get_old_backup_dates valid fs target_location) r
          = fs) := by
  constructor
  · intro m hm hlen
    obtain ⟨hmem, hmin⟩ := sorted_head?_min (good_sorted valid fs target_location) hm
    obtain ⟨rest, hrest⟩ :
        ∃ rest, get_old_backup_dates valid fs target_location = m :: rest := by
      cases hd : get_old_backup_dates valid fs target_location with
      | nil =>
        rw [hd] at hm
        exact absurd hm (by simp)
      | cons a t =>
        rw [hd] at hm
        simp only [List.head?_cons, Option.some.injEq] at hm
        exact ⟨t, by rw [hm]⟩
    have hdirm := hdirs m hmem
    have hprune :
        prune_step fs target_location (get_old_backup_dates valid fs target_location) r =
          fs.rmtree (target_location ++ [m]) := by
      rw [hrest]
      exact prune_step_gt_cons (by rw [← hrest]; exact hlen) hdirm
    refine ⟨hmem, hmin, hprune, ?_, ?_⟩
    · rw [hprune]
      exact isDir_rmtree_self_false (List.prefix_refl _)
    · intro d hd hdm
      rw [hprune]
      exact isDir_rmtree_of_incomp (hdirs d hd) (pref_incomp (Ne.symm hdm)) (pref_incomp hdm)
  · intro hle
    exact prune_step_le (by omega)

/-- C1 witness: dates `20240101, 20240102, 20240115` with retention 2:
the prune removes exactly the `20240101` tree. -/
theorem spec_C1_witness :
    prune_step sampleMixedNames ["backups", "web1"]
      (get_old_backup_dates is_valid_date_format sampleMixedNames ["backups", "web1"]) 2 =
      sampleMixedNames.rmtree ["backups", "web1", "20240101"] := by
  have h := (spec_C1 is_valid_date_format sampleMixedNames ["backups", "web1"] 2
    (by decide)).1 "20240101" (by decide) (by decide)
  exact h.2.2.1

/-- C2: the link reference chosen at lines 201-205 is exactly the most
recent date in the observed list, other than today's, whose dated
snapshot contains the stripped relative directory as a directory; `none`
exactly when no such date exists.  In particular, with snapshots
`20240101` and `20240102` both containing `etc` and today `20240103` the
choice is `20240102`, and when only `20240101` contains `etc` it is
`20240101`. -/
theorem spec_C2 (fs : FS) (target_location : FPath) (previous_backup_dates : List String)
    (backup_date : String) (stripped_directory : FPath) :
    (∀ d, last_backup_for fs target_location previous_backup_dates backup_date
        stripped_directory = some d ↔
      (d ∈ previous_backup_dates ∧ d ≠ backup_date ∧
        fs.isDir (target_location ++ [d] ++ stripped_directory) = true ∧
        ∀ x ∈ previous_backup_dates, x ≠ backup_date →
          fs.isDir (target_location ++ [x] ++ stripped_directory) = true → strLe x d = true))
    ∧ (last_backup_for fs target_location previous_backup_dates backup_date
        stripped_directory = none ↔
      ∀ d ∈ previous_backup_dates, d = backup_date ∨
        fs.isDir (target_location ++ [d] ++ stripped_directory) = false)
    ∧ last_backup_for sampleTwoEtc ["backups", "web1"] ["20240101", "20240102"]
        "20240103" ["etc"] = some "20240102"
    ∧ last_backup_for sampleOneEtc ["backups", "web1"] ["20240101", "20240102"]
        "20240103" ["etc"] = some "20240101" := by
  refine ⟨?_, ?_, by decide, by decide⟩
  · intro d
    simp only [last_backup_for]
    rw [sorted_getLast?_max (sortStr_sorted _)]
    constructor
    · rintro ⟨hmem, hmax⟩
      rw [mem_sortStr, List.mem_filter] at hmem
      obtain ⟨hg, hne⟩ := hmem
      rw [bne_iff_ne] at hne
      obtain ⟨hd, hdir⟩ := mem_gobd_iff.1 hg
      refine ⟨hd, hne, hdir, ?_⟩
      intro x hx hxne hxdir
      refine hmax x ?_
      rw [mem_sortStr, List.mem_filter]
      exact ⟨mem_gobd_iff.2 ⟨hx, hxdir⟩, by rwa [bne_iff_ne]⟩
    · rintro ⟨hd, hne, hdir, hmax⟩
      constructor
      · rw [mem_sortStr, List.mem_filter]
        exact ⟨mem_gobd_iff.2 ⟨hd, hdir⟩, by rwa [bne_iff_ne]⟩
      · intro x hx
        rw [mem_sortStr, List.mem_filter] at hx
        obtain ⟨hg, hxne⟩ := hx
        rw [bne_iff_ne] at hxne
        obtain ⟨hxd, hxdir⟩ := mem_gobd_iff.1 hg
        exact hmax x hxd hxne hxdir
  · simp only [last_backup_for]
    rw [List.getLast?_eq_none_iff, sortStr_eq_nil_iff, List.filter_eq_nil_iff]
    constructor
    · intro h d hd
      by_cases hdir : fs.isDir (target_location ++ [d] ++ stripped_directory) = true
      · left
        have := h d (mem_gobd_iff.2 ⟨hd, hdir⟩)
        simpa [bne_iff_ne] using this
      · right
        rwa [Bool.not_eq_true] at hdir
    · intro h d hd
      obtain ⟨hdd, hdir⟩ := mem_gobd_iff.1 hd
      rcases h d hdd with rfl | hf
      · simp
      · rw [hf] at hdir
        exact absurd hdir (by simp)

/-- C2 witness: the characterization applied at the two-snapshot store
yields the `20240102` reference. -/
theorem spec_C2_witness :
    last_backup_for sampleTwoEtc ["backups", "web1"] ["20240101", "20240102"]
      "20240103" ["etc"] = some "20240102" := by
  refine ((spec_C2 sampleTwoEtc ["backups", "web1"] ["20240101", "20240102"] "20240103"
    ["etc"]).1 "20240102").2 ⟨by decide, by decide, by decide, ?_⟩
  intro x hx h1 h2
  fin_cases hx <;> decide

/-- C7 counterexample: with a regular file named `20240101` as the only
child of the server root, the listing returns `["20240101"]` although
that name is not an immediate subdirectory of the root — `os.listdir`
does not filter out non-directories, so the listing is not "exactly the
names of its immediate subdirectories". -/
theorem spec_C7_counterexample :
    get_old_backup_dates is_valid_date_format sampleFileChild ["backups", "web1"] =
      ["20240101"]
    ∧ sampleFileChild.isDir ["backups", "web1", "20240101"] = false := by
  exact ⟨by decide, by decide⟩

/-- C7 (amended): listing the snapshot dates of a target root returns
exactly the names of its immediate child entries — directories or regular
files — that parse under the configured date format, sorted ascending and
duplicate-free, with non-parsing names excluded; a non-existent target
root yields the empty sequence rather than an error.  Directory names
20240101, 20240115, bogus, 20240102 yield the sorted dates with `bogus`
excluded. -/
theorem spec_C7_amended (valid : String → Bool) (fs : FS) (target_dir : FPath) :
    (∀ n, n ∈ get_old_backup_dates valid fs target_dir ↔
      (fs.isDir target_dir = true ∧ valid n = true ∧ n ∈ fs.listdir target_dir))
    ∧ List.Sorted (fun a b => strLe a b = true) (get_old_backup_dates valid fs target_dir)
    ∧ (get_old_backup_dates valid fs target_dir).Nodup
    ∧ (fs.pathExists target_dir = false → get_old_backup_dates valid fs target_dir = [])
    ∧ get_old_backup_dates is_valid_date_format sampleMixedNames ["backups", "web1"] =
        ["20240101", "20240102", "20240115"] := by
  refine ⟨fun n => mem_good_iff, good_sorted valid fs target_dir,
    good_nodup valid fs target_dir, ?_, by decide⟩
  intro h
  unfold get_old_backup_dates
  rw [if_pos (by rw [h]; simp)]

/-- C7 witness: the amended characterization applied at the mixed-name
store and at the empty store. -/
theorem spec_C7_witness :
    "20240101" ∈ get_old_backup_dates is_valid_date_format sampleMixedNames
      ["backups", "web1"]
    ∧ get_old_backup_dates is_valid_date_format sampleEmptyFS ["backups", "web1"] = [] := by
  constructor
  · exact ((spec_C7_amended is_valid_date_format sampleMixedNames
      ["backups", "web1"]).1 "20240101").2 ⟨by decide, by decide, by decide⟩
  · exact (spec_C7_amended is_valid_date_format sampleEmptyFS
      ["backups", "web1"]).2.2.2.1 (by decide)

/-- C10: in `last` mode `__check_number_backups` takes
`sorted(directories)[-1]` with no emptiness guard, so a configured pair
with zero snapshots makes the call fail with an uncaught `IndexError`
(modelled as `none`), while `default` and `full` always succeed. -/
theorem spec_C10 (cfg : Config) (sel : Option String) (fs : FS) :
    ((∃ pb ∈ check_pairs cfg sel fs, pb = []) →
      check_number_backups cfg sel fs CheckType.last = none)
    ∧ (check_number_backups cfg sel fs CheckType.default).isSome = true
    ∧ (check_number_backups cfg sel fs CheckType.full).isSome = true := by
  refine ⟨?_, ?_, ?_⟩
  · rintro ⟨pb, hpb, rfl⟩
    exact mapM_eq_none_of_mem hpb rfl
  · exact mapM_isSome_of_all (fun x _ => rfl)
  · exact mapM_isSome_of_all (fun x _ => rfl)

/-- C10 witness: a configured pair with an existing server root but zero
snapshots crashes `last` mode and leaves the other modes unharmed. -/
theorem spec_C10_witness :
    check_number_backups sampleCfgR0 none sampleBareRoot CheckType.last = none
    ∧ (check_number_backups sampleCfgR0 none sampleBareRoot CheckType.default).isSome = true
    ∧ (check_number_backups sampleCfgR0 none sampleBareRoot CheckType.full).isSome = true :=
  ⟨(spec_C10 sampleCfgR0 none sampleBareRoot).1 ⟨[], by decide, rfl⟩,
   (spec_C10 sampleCfgR0 none sampleBareRoot).2.1,
   (spec_C10 sampleCfgR0 none sampleBareRoot).2.2⟩

/-- C4 (demonstrating the code bug): a dry run forwards `--dry-run` to
every rsync invocation, yet the retention prune still deletes the oldest
snapshot tree: with retention 1, snapshots `20240101` and `20240102` and
today `20240103`, the dry run removes `/backups/web1/20240101` although
the CLI documents `--dryrun` as simulating without making any changes. -/
theorem spec_C4_bug :
    (rsyncRun sampleCfgDry sampleTwoDays none).2.length = 1
    ∧ ((rsyncRun sampleCfgDry sampleTwoDays none).2.all
        (fun c => c.contains "--dry-run")) = true
    ∧ sampleTwoDays.isDir ["backups", "web1", "20240101"] = true
    ∧ (rsyncRun sampleCfgDry sampleTwoDays none).1.isDir ["backups", "web1", "20240101"]
        = false := by
  exact ⟨by decide, by decide, by decide, by decide⟩

/-- C6 counterexample: retention 3 with snapshots `20240101`..`20240103`
on disk — the fourth run (today `20240104`) does not delete
`/backups/web1/20240101`: the prune compares the date list captured
before today's snapshot was created (3 dates) with the retention count,
so `3 > 3` fails and nothing is removed. -/
theorem spec_C6_counterexample :
    (rsyncRun sampleCfgR3 sampleThreeDays none).1.isDir ["backups", "web1", "20240101"]
      = true := by decide

/-- C6 (amended): the pruning decision is evaluated against the
snapshot-date list captured at the start of the server's pass, which does
not include the snapshot the current run creates; a run whose captured
list is within the retention count removes nothing, so the fourth run
(today `20240104`, retention 3) keeps all snapshots and it is the fifth
run (`20240105`) that deletes `/backups/web1/20240101` in its
entirety. -/
theorem spec_C6_amended :
    (∀ (cfg : Config) (fs : FS) (srv : ServerCfg),
      (get_old_backup_dates cfg.valid fs (cfg.targetOf srv)).length ≤
          cfg.number_of_versions →
      ∀ q, fs.isDir q = true → ((rsyncServer cfg fs srv).1).isDir q = true)
    ∧ (rsyncRun sampleCfgR3 sampleThreeDays none).1.isDir ["backups", "web1", "20240101"]
        = true
    ∧ (rsyncRun { sampleCfgR3 with backup_date := "20240105" }
        (rsyncRun sampleCfgR3 sampleThreeDays none).1 none).1.isDir
        ["backups", "web1", "20240101"] = false
    ∧ (rsyncRun { sampleCfgR3 with backup_date := "20240105" }
        (rsyncRun sampleCfgR3 sampleThreeDays none).1 none).1.isDir
        ["backups", "web1", "20240102"] = true := by
  refine ⟨?_, by decide, by decide, by decide⟩
  intro cfg fs srv hle q hq
  exact rsyncServer_isDir_mono_of_le hle hq

/-- C6 witness: the no-deletion clause of the amended claim applied to
the fourth run's server pass. -/
theorem spec_C6_witness :
    ((rsyncServer sampleCfgR3 sampleThreeDays
      ⟨"web1", [(⟨true, ["etc", "nginx"]⟩, [])]⟩).1).isDir
      ["backups", "web1", "20240101", "etc", "nginx"] = true :=
  spec_C6_amended.1 sampleCfgR3 sampleThreeDays
    ⟨"web1", [(⟨true, ["etc", "nginx"]⟩, [])]⟩ (by decide)
    ["backups", "web1", "20240101", "etc", "nginx"] (by decide)

/-- C9: the `--link-dest` argument concatenates the server's snapshot
root, a separator, the chosen date, and then the originally configured
directory path directly, with no separator between the date and the
directory; it equals the properly separated snapshot sub-path exactly
when the configured directory is absolute, whereas the destination path
always renders the separator-stripped relative directory with explicit
separators. -/
theorem spec_C9 (cfg : Config) (srv : ServerCfg) (directory : PyPath)
    (excludes : List String) (lb : String) (object_target : FPath)
    (hcomps : directory.comps ≠ []) :
    ((build_rsync_cmd cfg srv directory excludes (some lb) object_target).getLast? =
      some (renderFPath cfg.backup_location.absolute (cfg.targetOf srv) ++ "/" ++ lb ++
        renderPyPath directory))
    ∧ ((renderFPath cfg.backup_location.absolute (cfg.targetOf srv) ++ "/" ++ lb ++
          renderPyPath directory =
        renderFPath cfg.backup_location.absolute
          (cfg.targetOf srv ++ lb :: directory.comps))
        ↔ directory.absolute = true)
    ∧ renderFPath cfg.backup_location.absolute
        (cfg.targetOf srv ++ [cfg.backup_date] ++ directory.comps) =
      renderFPath cfg.backup_location.absolute (cfg.targetOf srv) ++ "/" ++
        cfg.backup_date ++ "/" ++ renderComps directory.comps := by
  obtain ⟨abs, comps⟩ := directory
  cases comps with
  | nil => exact absurd rfl hcomps
  | cons c cs =>
    have htarget : cfg.targetOf srv ≠ [] := by simp [Config.targetOf]
    refine ⟨?_, ?_, ?_⟩
    · simp only [build_rsync_cmd]
      exact getLast?_append_pair _ _ _
    · rw [renderFPath_snoc_append _ _ htarget]
      cases abs with
      | true =>
        have hpy : renderPyPath ⟨true, c :: cs⟩ = "/" ++ renderComps (c :: cs) := rfl
        rw [hpy]
        simp [String.append_assoc]
      | false =>
        have hpy : renderPyPath ⟨false, c :: cs⟩ = renderComps (c :: cs) := rfl
        rw [hpy]
        constructor
        · intro h
          exfalso
          have hlen := congrArg String.length h
          have hs : ("/" : String).length = 1 := rfl
          simp only [String.length_append] at hlen
          omega
        · intro h
          exact absurd h (by simp)
    · rw [List.append_assoc]
      exact renderFPath_snoc_append _ _ htarget _ _ _

/-- C3: running the backup pass a second time on the same calendar day
with unchanged configuration issues no transfer for any configured
(server, directory) pair: every dated destination path created by the
first pass still exists, so the second pass's plan is all skip and no
rsync invocation is recorded.  Hypotheses: the configured server names
are distinct (they are dict keys in the source), today's date string
parses under the configured format, and today's dated path did not yet
exist in any form before the first run. -/
theorem spec_C3 (cfg : Config) (fs : FS)
    (hvalid : cfg.valid cfg.backup_date = true)
    (hnd : (cfg.servers.map ServerCfg.name).Nodup)
    (hfresh : ∀ srv ∈ cfg.servers,
      fs.dateFresh (cfg.targetOf srv ++ [cfg.backup_date])) :
    (rsyncRun cfg (rsyncRun cfg fs none).1 none).2 = [] := by
  unfold rsyncRun
  exact rsyncServers_skip cfg cfg.servers _ hnd
    (rsyncServers_spec cfg hvalid cfg.servers fs hnd hfresh).2.2.2

/-- C3 witness: a second same-day run over the three-snapshot store
issues no rsync invocation. -/
theorem spec_C3_witness :
    (rsyncRun sampleCfgR3 (rsyncRun sampleCfgR3 sampleThreeDays none).1 none).2 = [] :=
  spec_C3 sampleCfgR3 sampleThreeDays (by decide) (by decide) (by decide)

/-- C8: even with the dry-run flag set, the pass creates the dated
destination directory (with all parents) for every configured pair, and
a subsequent non-dry run on the same calendar day finds each destination
already existing and issues no transfer for any pair. -/
theorem spec_C8 (cfg : Config) (fs : FS)
    (_hdry : cfg.dryrun = true)
    (hvalid : cfg.valid cfg.backup_date = true)
    (hnd : (cfg.servers.map ServerCfg.name).Nodup)
    (hfresh : ∀ srv ∈ cfg.servers,
      fs.dateFresh (cfg.targetOf srv ++ [cfg.backup_date])) :
    (∀ srv ∈ cfg.servers, ∀ de ∈ srv.directory_list,
      ((rsyncRun cfg fs none).1).isDir
        (cfg.targetOf srv ++ [cfg.backup_date] ++ de.1.comps) = true)
    ∧ (rsyncRun { cfg with dryrun := false } (rsyncRun cfg fs none).1 none).2 = [] := by
  constructor
  · exact (rsyncServers_spec cfg hvalid cfg.servers fs hnd hfresh).2.2.2
  · unfold rsyncRun
    apply rsyncServers_skip { cfg with dryrun := false } cfg.servers _ hnd
    exact (rsyncServers_spec cfg hvalid cfg.servers fs hnd hfresh).2.2.2

/-- C8 witness: a dry run over the empty store creates the dated
destination for `/etc`, and the following real run issues no transfer. -/
theorem spec_C8_witness :
    ((rsyncRun sampleCfgDry sampleEmptyFS none).1).isDir
      ["backups", "web1", "20240103", "etc"] = true
    ∧ (rsyncRun { sampleCfgDry with dryrun := false }
        (rsyncRun sampleCfgDry sampleEmptyFS none).1 none).2 = [] := by
  have h := spec_C8 sampleCfgDry sampleEmptyFS (by decide) (by decide) (by decide)
    (by decide)
  exact ⟨h.1 ⟨"web1", [(⟨true, ["etc"]⟩, [])]⟩ (by decide) (⟨true, ["etc"]⟩, [])
    (by decide), h.2⟩

/-- C5 counterexample: retention 0 over an empty store — after the first
run (today `20240101`) the pair (`web1`, `etc`) has one snapshot date on
disk, exceeding the retention count although the prune pass has
completed, because the prune compared the pre-run (empty) list with the
retention count. -/
theorem spec_C5_counterexample :
    get_old_backup_directories (rsyncRun sampleCfgR0 sampleEmptyFS none).1
      ["backups", "web1"]
      (get_old_backup_dates is_valid_date_format (rsyncRun sampleCfgR0 sampleEmptyFS none).1
        ["backups", "web1"]) ["etc"] = ["20240101"]
    ∧ ¬ ((get_old_backup_dates is_valid_date_format
        (rsyncRun sampleCfgR0 sampleEmptyFS none).1
        ["backups", "web1"]).length ≤ sampleCfgR0.number_of_versions) := by
  exact ⟨by decide, by decide⟩

/-- C5 (amended): after a server's pass — directory loop followed by the
prune step — the number of snapshot dates on disk for the server root
(and hence for each (server, directory) pair) is at most the larger of
the pre-pass count and retention + 1; the retention count itself is not
an upper bound, since the prune decision uses the pre-pass date list,
which does not contain the snapshot the pass creates.  The hypothesis
says valid-named children of the server root are directories. -/
theorem spec_C5_amended (cfg : Config) (fs : FS) (srv : ServerCfg)
    (hroots : ∀ n ∈ fs.listdir (cfg.targetOf srv), cfg.valid n = true →
      fs.isDir (cfg.targetOf srv ++ [n]) = true) :
    ((get_old_backup_dates cfg.valid ((rsyncServer cfg fs srv).1)
        (cfg.targetOf srv)).length ≤
      max (get_old_backup_dates cfg.valid fs (cfg.targetOf srv)).length
        (cfg.number_of_versions + 1))
    ∧ ∀ de ∈ srv.directory_list,
        (get_old_backup_directories ((rsyncServer cfg fs srv).1) (cfg.targetOf srv)
          (get_old_backup_dates cfg.valid ((rsyncServer cfg fs srv).1)
            (cfg.targetOf srv)) de.1.comps).length ≤
        max (get_old_backup_dates cfg.valid fs (cfg.targetOf srv)).length
          (cfg.number_of_versions + 1) := by
  have hmem : ∀ n ∈ get_old_backup_dates cfg.valid ((rsyncServer cfg fs srv).1)
      (cfg.targetOf srv), n = cfg.backup_date ∨
        n ∈ get_old_backup_dates cfg.valid fs (cfg.targetOf srv) := by
    intro n hn
    obtain ⟨hdir', hvn, hln⟩ := mem_good_iff.1 hn
    rcases rsyncServer_listdir_sub hln with h1 | h1 | h1
    · right
      have hdirn := hroots n h1 hvn
      have hdirt : fs.isDir (cfg.targetOf srv) = true := isDir_of_pref ⟨[n], rfl⟩ hdirn
      exact mem_good_iff.2 ⟨hdirt, hvn, h1⟩
    · exfalso
      have hl := h1.length_le
      rw [List.length_append] at hl
      simp only [List.length_singleton] at hl
      omega
    · have heq := pref_eq_of_ge h1 (le_of_eq (by simp [List.length_append]))
      have h2 := List.append_cancel_left heq
      injection h2 with h3 _
      exact Or.inl h3.symm
  have hnodup := good_nodup cfg.valid ((rsyncServer cfg fs srv).1) (cfg.targetOf srv)
  have hmax1 := Nat.le_max_left
    (get_old_backup_dates cfg.valid fs (cfg.targetOf srv)).length
    (cfg.number_of_versions + 1)
  have hmax2 := Nat.le_max_right
    (get_old_backup_dates cfg.valid fs (cfg.targetOf srv)).length
    (cfg.number_of_versions + 1)
  have hbound : (get_old_backup_dates cfg.valid ((rsyncServer cfg fs srv).1)
      (cfg.targetOf srv)).length ≤
      max (get_old_backup_dates cfg.valid fs (cfg.targetOf srv)).length
        (cfg.number_of_versions + 1) := by
    by_cases hgt : (get_old_backup_dates cfg.valid fs (cfg.targetOf srv)).length >
        cfg.number_of_versions
    · cases hd : get_old_backup_dates cfg.valid fs (cfg.targetOf srv) with
      | nil =>
        rw [hd] at hgt
        exact absurd hgt (by simp)
      | cons m rest =>
        have hm_mem : m ∈ get_old_backup_dates cfg.valid fs (cfg.targetOf srv) := by
          rw [hd]
          exact List.mem_cons_self _ _
        obtain ⟨hdirt, hvm, hlm⟩ := mem_good_iff.1 hm_mem
        have hm_dir := hroots m hlm hvm
        have hm_dir_loop := rsyncDirs_isDir_mono cfg srv (cfg.targetOf srv) (m :: rest)
          (srv.directory_list.map Prod.fst) (fs.mkdirp (cfg.targetOf srv))
          (isDir_mkdirp_of hm_dir)
        have hfs' : (rsyncServer cfg fs srv).1 =
            ((rsyncDirs cfg srv (cfg.targetOf srv) (m :: rest)
              (srv.directory_list.map Prod.fst) (fs.mkdirp (cfg.targetOf srv))).1).rmtree
              (cfg.targetOf srv ++ [m]) := by
          simp only [rsyncServer, hd]
          exact prune_step_gt_cons (by rw [hd] at hgt; exact hgt) hm_dir_loop
        have hnotin : m ∉ get_old_backup_dates cfg.valid ((rsyncServer cfg fs srv).1)
            (cfg.targetOf srv) := by
          intro hmp
          obtain ⟨_, _, hl2⟩ := mem_good_iff.1 hmp
          rw [hfs'] at hl2
          exact listdir_rmtree_child_false hl2
        have hsubset : ∀ n ∈ get_old_backup_dates cfg.valid ((rsyncServer cfg fs srv).1)
            (cfg.targetOf srv),
            n ∈ (get_old_backup_dates cfg.valid fs (cfg.targetOf srv) ++
              [cfg.backup_date]).erase m := by
          intro n hn
          have hne : n ≠ m := fun he => hnotin (he ▸ hn)
          rw [List.mem_erase_of_ne hne]
          rcases hmem n hn with h | h
          · refine List.mem_append.2 (Or.inr ?_)
            rw [h]
            exact List.mem_singleton_self _
          · exact List.mem_append.2 (Or.inl h)
        have hsp := (hnodup.subperm (fun _ h => hsubset _ h)).length_le
        have hle : ((get_old_backup_dates cfg.valid fs (cfg.targetOf srv) ++
            [cfg.backup_date]).erase m).length =
            (get_old_backup_dates cfg.valid fs (cfg.targetOf srv) ++
              [cfg.backup_date]).length - 1 := by
          rw [List.length_erase, if_pos (List.mem_append.2 (Or.inl hm_mem))]
        have hNlen : (get_old_backup_dates cfg.valid fs (cfg.targetOf srv) ++
            [cfg.backup_date]).length =
            (get_old_backup_dates cfg.valid fs (cfg.targetOf srv)).length + 1 := by
          rw [List.length_append, List.length_singleton]
        rw [hd] at hsp hle hNlen
        omega
    · have hsubset : ∀ n ∈ get_old_backup_dates cfg.valid ((rsyncServer cfg fs srv).1)
          (cfg.targetOf srv),
          n ∈ get_old_backup_dates cfg.valid fs (cfg.targetOf srv) ++
            [cfg.backup_date] := by
        intro n hn
        rcases hmem n hn with h | h
        · refine List.mem_append.2 (Or.inr ?_)
          rw [h]
          exact List.mem_singleton_self _
        · exact List.mem_append.2 (Or.inl h)
      have hsp := (hnodup.subperm (fun _ h => hsubset _ h)).length_le
      rw [List.length_append, List.length_singleton] at hsp
      omega
  exact ⟨hbound, fun de _ => le_trans (gobd_length_le _ _ _ _) hbound⟩

/-- C5 witness: the bound applied after the fourth run's server pass over
the three-snapshot store. -/
theorem spec_C5_witness :
    (get_old_backup_dates sampleCfgR3.valid
      ((rsyncServer sampleCfgR3 sampleThreeDays
        ⟨"web1", [(⟨true, ["etc", "nginx"]⟩, [])]⟩).1)
      (sampleCfgR3.targetOf ⟨"web1", [(⟨true, ["etc", "nginx"]⟩, [])]⟩)).length ≤
      max (get_old_backup_dates sampleCfgR3.valid sampleThreeDays
        (sampleCfgR3.targetOf ⟨"web1", [(⟨true, ["etc", "nginx"]⟩, [])]⟩)).length
        (sampleCfgR3.number_of_versions + 1) :=
  (spec_C5_amended sampleCfgR3 sampleThreeDays
    ⟨"web1", [(⟨true, ["etc", "nginx"]⟩, [])]⟩ (by decide)).1

/-- C9 witness: for the absolute configured directory `/etc` the
link-dest string is the intended `/backups/web1/20240102/etc`. -/
theorem spec_C9_witness :
    (build_rsync_cmd sampleCfgDry ⟨"web1", [(⟨true, ["etc"]⟩, [])]⟩ ⟨true, ["etc"]⟩ []
      (some "20240102") ["backups", "web1", "20240103", "etc"]).getLast? =
      some "/backups/web1/20240102/etc" := by
  have h := (spec_C9 sampleCfgDry ⟨"web1", [(⟨true, ["etc"]⟩, [])]⟩ ⟨true, ["etc"]⟩ []
    "20240102" ["backups", "web1", "20240103", "etc"] (by decide)).1
  rw [h]
  decide

end RsyncBackup
